import Mathlib

/-!
Verification development for the band-limited audio resampling buffer of
NesJoy (src/Classes/nes/blip_buff.h).  The repository ships the interface
header with its documentation; the function bodies are not part of the
source tree, so the operations below are modelled from the specification
(spec.md together with the doc comments of blip_buff.h) as a shallow
embedding: machine integers become Nat/Int, the cell array becomes an
Array Int with bounds-checked writes, and fallible operations return
Option or an explicit error flag.
-/

/-- Constant from the header: maximum clock_rate/sample_rate ratio. -/
def blip_max_ratio : Nat := 2 ^ 20

/-- Constant from the header: maximum samples generated from one time frame. -/
def blip_max_frame : Nat := 4000

/-- Modelled from the spec: the fixed-point ratio is stored with 20 fraction
bits (header: the ratio is stored with only 20 fraction bits). -/
def time_bits : Nat := 20

/-- Fixed-point unit: one output sample corresponds to time_unit units. -/
def time_unit : Nat := 2 ^ time_bits

/-- Modelled from the spec: guard cells past the capacity for kernel spread
(tolerance of about two output samples past the frame end); the spec leaves
the exact count open, the claims do not depend on it. -/
def buf_extra : Nat := 2

/-- Modelled from the spec: the buffer state.  factor is the fixed-point
samples-per-clock ratio (time_unit scale, rounded up), offset the fixed-point
position inside the current frame, size the capacity in unread samples,
avail the count of finalized unread samples (held in cells 0..avail of buf,
shifted to the front as spec section 9 permits), integrator the running
cumulative sum, and buf the accumulator cell array (size + buf_extra cells,
frame cell j of the current frame living at absolute index avail + j). -/
structure blip_t where
  factor : Nat
  offset : Nat
  size : Nat
  avail : Nat
  integrator : Int
  buf : Array Int
  deriving Repr, DecidableEq

/-- Bounds-checked additive write into the cell array: out-of-range indices
are ignored (the spec demands that a delta must never corrupt unrelated
cells, writes are bounds-checked). -/
def addAt (a : Array Int) (i : Nat) (v : Int) : Array Int :=
  a.modify i (fun x => x + v)

/-- Bounds-checked plain write used for the output sample array. -/
def setAt (a : Array Int) (i : Nat) (v : Int) : Array Int :=
  if h : i < a.size then a.set ⟨i, h⟩ v else a

/-- Modelled from the spec: the kernel spread adds delta * kernel phase tap
into each of the taps cells starting at the base cell index.  The numeric
kernel table is left open by the spec (section 9), so the operations take
the kernel as a parameter. -/
def spread (kernel : Nat → Nat → Int) (phase : Nat) (delta : Int) (base : Nat)
    (buf : Array Int) : Nat → Array Int
  | 0 => buf
  | n + 1 => addAt (spread kernel phase delta base buf n) (base + n) (delta * kernel phase n)

/-- Modelled from the spec: blip_new creates a buffer holding at most size
unread samples, with rates set so that there are blip_max_ratio clocks per
sample (header doc of blip_new). -/
def blip_new (size : Nat) : blip_t :=
  { factor := time_unit / blip_max_ratio
    offset := 0
    size := size
    avail := 0
    integrator := 0
    buf := Array.mkArray (size + buf_extra) 0 }

/-- Fixed-point factor derived from the rates, rounded up (ceiling division)
so that the conversion never under-provides samples. -/
def ratioFactor (clock_rate sample_rate : Nat) : Nat :=
  (time_unit * sample_rate + clock_rate - 1) / clock_rate

/-- Modelled from the spec: blip_set_rates recomputes the fixed-point factor;
it fails, reporting a configuration error (second component true) and leaving
the state unchanged, when clock_rate / sample_rate would exceed
blip_max_ratio. -/
def blip_set_rates (s : blip_t) (clock_rate sample_rate : Nat) : blip_t × Bool :=
  if sample_rate * blip_max_ratio < clock_rate then (s, true)
  else ({ s with factor := ratioFactor clock_rate sample_rate }, false)

/-- Modelled from the spec: blip_clear resets cursors, the in-flight frame
state and the running cumulative sum, discarding all buffered state. -/
def blip_clear (s : blip_t) : blip_t :=
  { s with offset := 0
           avail := 0
           integrator := 0
           buf := Array.mkArray s.buf.size 0 }

/-- Modelled from the spec: blip_add_delta maps the clock time to a
fixed-point output-sample position, splits it into a cell index (relative to
the frame start at cell avail) and a sub-sample phase, and spreads
delta through the kernel row of that phase into taps adjacent cells. -/
def blip_add_delta (kernel : Nat → Nat → Int) (taps : Nat) (s : blip_t)
    (clock_time : Nat) (delta : Int) : blip_t :=
  let pos := clock_time * s.factor + s.offset
  { s with buf := spread kernel (pos % time_unit) delta (s.avail + pos / time_unit) s.buf taps }

/-- Modelled from the spec: blip_add_delta_fast is identical to
blip_add_delta except that the caller passes the cheaper kernel with fewer
taps; the accumulation core is shared. -/
def blip_add_delta_fast (kernel : Nat → Nat → Int) (taps : Nat) (s : blip_t)
    (clock_time : Nat) (delta : Int) : blip_t :=
  blip_add_delta kernel taps s clock_time delta

/-- Modelled from the spec: blip_clocks_needed returns the length in clocks
of the frame that makes sample_count more samples available, rounded so that
ending the frame there never yields fewer samples. -/
def blip_clocks_needed (s : blip_t) (sample_count : Nat) : Nat :=
  let needed := sample_count * time_unit
  if needed < s.offset then 0
  else (needed - s.offset + s.factor - 1) / s.factor

/-- Number of samples a frame of clock_duration clocks finalizes from state s. -/
def frameSamples (s : blip_t) (clock_duration : Nat) : Nat :=
  (clock_duration * s.factor + s.offset) / time_unit

/-- Modelled from the spec: blip_end_frame converts clock_duration to a
sample count S, makes cells 0..S of the frame available for reading
(appended to the readable range), keeps the remaining frame cells as cells
0.. of the new frame (in this front-shifted representation their absolute
indices already agree), and rebases the clock origin, keeping only the
sub-sample remainder of the fixed-point position.  It fails (none) on
capacity exhaustion, leaving no new samples stored. -/
def blip_end_frame (s : blip_t) (clock_duration : Nat) : Option blip_t :=
  let off := clock_duration * s.factor + s.offset
  if s.size < s.avail + off / time_unit then none
  else some { s with avail := s.avail + off / time_unit, offset := off % time_unit }

/-- Number of buffered samples available for reading. -/
def blip_samples_avail (s : blip_t) : Nat :=
  s.avail

/-- Saturation clamp of a wide sample value to the 16-bit signed range. -/
def clamp16 (x : Int) : Int :=
  if x < -32768 then -32768 else if 32767 < x then 32767 else x

/-- Read loop of blip_read_samples: k cells starting at cell i are folded
into the running cumulative sum; each resulting sample is clamped and
written at stride step into the output array. -/
def readLoop (buf : Array Int) (step : Nat) :
    Nat → Nat → Array Int → Int → Array Int × Int
  | _, 0, out, sum => (out, sum)
  | i, k + 1, out, sum =>
      readLoop buf step (i + 1) k
        (setAt out (i * step) (clamp16 (sum + buf.getD i 0))) (sum + buf.getD i 0)

/-- Cell array after removing the first n cells: remaining cells shift to
the front and the vacated tail is zero-filled (spec section 9 allows the
physical-shift representation). -/
def shiftDown (a : Array Int) (n : Nat) : Array Int :=
  a.extract n a.size ++ Array.mkArray (min n a.size) 0

/-- Modelled from the spec: blip_read_samples pops at most count samples,
oldest first, integrating each cell into the running cumulative sum,
clamping to the 16-bit range, and writing at stride 2 when stereo is true
(only every other output slot).  It returns the new state, the written
output array and the number of samples actually read; a short read only
ever reflects insufficient available samples. -/
def blip_read_samples (s : blip_t) (out : Array Int) (count : Nat) (stereo : Bool) :
    blip_t × Array Int × Nat :=
  let n := min count s.avail
  let step := if stereo then 2 else 1
  let r := readLoop s.buf step 0 n out s.integrator
  ({ s with avail := s.avail - n, integrator := r.2, buf := shiftDown s.buf n }, r.1, n)

/-- Modelled from the spec: blip_delete frees the buffer; passing NULL
(none) is a defined no-op that does not fail.  The optional buffer models
the nullable pointer, none standing for NULL and for the freed state. -/
def blip_delete : Option blip_t → Option blip_t
  | _ => none

/-- Read cursor of the spec data model: in the front-shifted representation
the first unread finalized sample is always cell 0. -/
def read_cursor (_ : blip_t) : Nat := 0

/-- Write extent of the spec data model: one past the last finalized sample. -/
def write_extent (s : blip_t) : Nat := s.avail

/-- Capacity of the spec data model: maximum unread samples. -/
def capacity (s : blip_t) : Nat := s.size

/-- Buffer invariant of the spec data model, specialized to the
front-shifted representation: the finalized range fits the capacity. -/
def wfBlip (s : blip_t) : Prop := s.avail ≤ s.size

/-- Invariant lifted to a fallible result: a failed operation makes no
claim, a successful one must preserve the invariant. -/
def wfOpt : Option blip_t → Prop
  | none => True
  | some s => wfBlip s

/-- Sequence of blip_add_delta calls applied left to right. -/
def addDeltas (kernel : Nat → Nat → Int) (taps : Nat) (s : blip_t)
    (l : List (Nat × Int)) : blip_t :=
  l.foldl (fun st p => blip_add_delta kernel taps st p.1 p.2) s

/-- Output array produced by reading from a given state; used to state that
equal states yield bit-identical sample streams. -/
def readFirst (out : Array Int) (count : Nat) (stereo : Bool) (s : blip_t) : Array Int :=
  (blip_read_samples s out count stereo).2.1

/-- Frame cell j of the current frame (absolute cell avail + j). -/
def frameCellAt (j : Nat) (s : blip_t) : Int :=
  s.buf.getD (s.avail + j) 0

/-- Example kernel table used by concrete witness instances. -/
def kW : Nat → Nat → Int := fun phase tap => Int.ofNat (phase % 3 + tap + 1)

/-- Concrete buffer state used by witness instances: three finalized cells
with values that exercise both clamping directions, a nonzero running sum
and a nonzero sub-sample offset. -/
def sW : blip_t :=
  { factor := 1
    offset := 3
    size := 4
    avail := 3
    integrator := 2
    buf := #[70000, 5, -100000, 11, 13, 0] }

/-! Helper lemmas. -/

theorem time_unit_eq : time_unit = 1048576 := by norm_num [time_unit, time_bits]

theorem time_unit_pos : 0 < time_unit := by rw [time_unit_eq]; norm_num

theorem ceil_div_ge (a b : Nat) (hb : 0 < b) : a ≤ (a + b - 1) / b * b := by
  have h1 := Nat.div_add_mod (a + b - 1) b
  have h2 : (a + b - 1) % b < b := Nat.mod_lt _ hb
  have key : ∀ X r : Nat, X + r = a + b - 1 → r < b → 0 < b → a ≤ X := by
    intro X r k1 k2 k3; omega
  have h3 := key (b * ((a + b - 1) / b)) ((a + b - 1) % b) h1 h2 hb
  calc a ≤ b * ((a + b - 1) / b) := h3
    _ = (a + b - 1) / b * b := Nat.mul_comm _ _

theorem ceil_div_lt (a b : Nat) (hb : 0 < b) : (a + b - 1) / b * b < a + b := by
  have key : ∀ X : Nat, X ≤ a + b - 1 → 0 < b → X < a + b := by
    intro X k1 k2; omega
  exact key _ (Nat.div_mul_le_self _ _) hb

theorem size_addAt (a : Array Int) (i : Nat) (v : Int) : (addAt a i v).size = a.size := by
  simp [addAt, Array.size_modify]

theorem addAt_comm (a : Array Int) (i j : Nat) (v w : Int) :
    addAt (addAt a i v) j w = addAt (addAt a j w) i v := by
  unfold addAt
  apply Array.ext
  · simp [Array.size_modify]
  · intro n h1 h2
    simp only [Array.getElem_modify, Array.size_modify]
    split_ifs <;> ring

theorem spread_addAt (kernel : Nat → Nat → Int) (phase : Nat) (delta : Int) (base : Nat)
    (buf : Array Int) (i : Nat) (v : Int) (n : Nat) :
    spread kernel phase delta base (addAt buf i v) n =
      addAt (spread kernel phase delta base buf n) i v := by
  induction n with
  | zero => rfl
  | succ m ih =>
    show addAt (spread kernel phase delta base (addAt buf i v) m) (base + m) _ =
      addAt (addAt (spread kernel phase delta base buf m) (base + m) _) i v
    rw [ih, addAt_comm]

theorem spread_comm (k1 k2 : Nat → Nat → Int) (p1 p2 : Nat) (d1 d2 : Int)
    (b1 b2 : Nat) (buf : Array Int) (n1 n2 : Nat) :
    spread k2 p2 d2 b2 (spread k1 p1 d1 b1 buf n1) n2 =
      spread k1 p1 d1 b1 (spread k2 p2 d2 b2 buf n2) n1 := by
  induction n2 with
  | zero => rfl
  | succ m ih =>
    show addAt (spread k2 p2 d2 b2 (spread k1 p1 d1 b1 buf n1) m) (b2 + m) _ =
      spread k1 p1 d1 b1 (addAt (spread k2 p2 d2 b2 buf m) (b2 + m) _) n1
    rw [ih, spread_addAt]

theorem size_spread (kernel : Nat → Nat → Int) (phase : Nat) (delta : Int) (base : Nat)
    (buf : Array Int) (n : Nat) :
    (spread kernel phase delta base buf n).size = buf.size := by
  induction n with
  | zero => rfl
  | succ m ih =>
    show (addAt (spread kernel phase delta base buf m) (base + m) _).size = _
    rw [size_addAt, ih]

theorem blip_add_delta_comm (kernel : Nat → Nat → Int) (taps : Nat) (s : blip_t)
    (t1 t2 : Nat) (d1 d2 : Int) :
    blip_add_delta kernel taps (blip_add_delta kernel taps s t1 d1) t2 d2 =
      blip_add_delta kernel taps (blip_add_delta kernel taps s t2 d2) t1 d1 := by
  simp only [blip_add_delta]
  congr 1
  exact spread_comm _ _ _ _ _ _ _ _ _ _ _

theorem foldl_right_comm_perm {α β : Type} (f : β → α → β)
    (hf : ∀ b a1 a2, f (f b a1) a2 = f (f b a2) a1) :
    ∀ {l1 l2 : List α}, l1.Perm l2 → ∀ b : β, l1.foldl f b = l2.foldl f b := by
  intro l1 l2 h
  induction h with
  | nil => intro b; rfl
  | cons x _ ih => intro b; simp only [List.foldl_cons]; exact ih _
  | swap x y l => intro b; simp only [List.foldl_cons]; rw [hf]
  | trans _ _ ih1 ih2 => intro b; rw [ih1, ih2]

/-- C6: when clock_rate / sample_rate exceeds blip_max_ratio, rate
configuration reports a configuration error synchronously (error flag true)
and returns the buffer state unchanged, including all buffered samples. -/
theorem blip_set_rates_ratio_error (s : blip_t) (clock_rate sample_rate : Nat)
    (h : sample_rate * blip_max_ratio < clock_rate) :
    blip_set_rates s clock_rate sample_rate = (s, true) := by
  unfold blip_set_rates
  rw [if_pos h]

theorem blip_set_rates_ratio_error_witness :
    1 * blip_max_ratio < 1048577 ∧
      blip_set_rates (blip_new 3) 1048577 1 = (blip_new 3, true) :=
  ⟨by decide, blip_set_rates_ratio_error (blip_new 3) 1048577 1 (by decide)⟩

/-- C10: destroying a NULL buffer (modelled as the absent optional buffer)
is a defined no-op: the call returns normally and nothing changes, there
being no buffer either before or after. -/
theorem blip_delete_null_noop : blip_delete none = none := rfl

/-- C7: for admissible rates the derived fixed-point factor is the rounded-up
(ceiling) fixed-point quotient: it never under-represents the exact ratio
(first two conjuncts bracket it within one unit above), so converting any
clock duration t to samples never yields fewer than the exact-rate amount
(third conjunct); rounding may over-provide but never under-provides. -/
theorem blip_set_rates_rounds_up (s : blip_t) (clock_rate sample_rate t : Nat)
    (h0 : 0 < clock_rate) (h1 : ¬ sample_rate * blip_max_ratio < clock_rate) :
    time_unit * sample_rate ≤ (blip_set_rates s clock_rate sample_rate).1.factor * clock_rate ∧
    (blip_set_rates s clock_rate sample_rate).1.factor * clock_rate <
      time_unit * sample_rate + clock_rate ∧
    t * sample_rate / clock_rate ≤
      t * (blip_set_rates s clock_rate sample_rate).1.factor / time_unit := by
  have hfac : (blip_set_rates s clock_rate sample_rate).1.factor =
      (time_unit * sample_rate + clock_rate - 1) / clock_rate := by
    unfold blip_set_rates ratioFactor
    rw [if_neg h1]
  rw [hfac]
  have hge := ceil_div_ge (time_unit * sample_rate) clock_rate h0
  have hlt := ceil_div_lt (time_unit * sample_rate) clock_rate h0
  refine ⟨hge, hlt, ?_⟩
  rw [Nat.le_div_iff_mul_le time_unit_pos]
  apply Nat.le_of_mul_le_mul_right ?_ h0
  have hq : t * sample_rate / clock_rate * clock_rate ≤ t * sample_rate :=
    Nat.div_mul_le_self _ _
  calc t * sample_rate / clock_rate * time_unit * clock_rate
      = t * sample_rate / clock_rate * clock_rate * time_unit := by ring
    _ ≤ t * sample_rate * time_unit := Nat.mul_le_mul_right _ hq
    _ = t * (time_unit * sample_rate) := by ring
    _ ≤ t * ((time_unit * sample_rate + clock_rate - 1) / clock_rate * clock_rate) :=
        Nat.mul_le_mul_left _ hge
    _ = t * ((time_unit * sample_rate + clock_rate - 1) / clock_rate) * clock_rate := by
        ring

theorem blip_set_rates_rounds_up_witness :
    0 < 1789773 ∧ ¬ 44100 * blip_max_ratio < 1789773 ∧
      (time_unit * 44100 ≤ (blip_set_rates (blip_new 4) 1789773 44100).1.factor * 1789773 ∧
       (blip_set_rates (blip_new 4) 1789773 44100).1.factor * 1789773 <
         time_unit * 44100 + 1789773 ∧
       997 * 44100 / 1789773 ≤
         997 * (blip_set_rates (blip_new 4) 1789773 44100).1.factor / time_unit) :=
  ⟨by decide, by decide,
    blip_set_rates_rounds_up (blip_new 4) 1789773 44100 997 (by decide) (by decide)⟩

theorem clocks_needed_div (s : blip_t) (N : Nat)
    (ho : s.offset < time_unit) (hf : 0 < s.factor) (hfU : s.factor ≤ time_unit) :
    (blip_clocks_needed s N * s.factor + s.offset) / time_unit = N := by
  have hU := time_unit_eq
  by_cases hc : N * time_unit < s.offset
  · have hc0 : blip_clocks_needed s N = 0 := by
      show (if N * time_unit < s.offset then 0
        else (N * time_unit - s.offset + s.factor - 1) / s.factor) = 0
      rw [if_pos hc]
    rw [hc0, Nat.zero_mul, Nat.zero_add]
    rw [hU] at hc ho ⊢
    omega
  · push_neg at hc
    have hc1 : blip_clocks_needed s N =
        (N * time_unit - s.offset + s.factor - 1) / s.factor := by
      show (if N * time_unit < s.offset then 0
        else (N * time_unit - s.offset + s.factor - 1) / s.factor) = _
      rw [if_neg (by omega)]
    rw [hc1]
    have hge := ceil_div_ge (N * time_unit - s.offset) s.factor hf
    have hlt := ceil_div_lt (N * time_unit - s.offset) s.factor hf
    have key : ∀ X o f : Nat, o ≤ N * 1048576 → o < 1048576 → f ≤ 1048576 →
        N * 1048576 - o ≤ X → X < N * 1048576 - o + f → (X + o) / 1048576 = N := by
      intro X o f k1 k2 k3 k4 k5
      omega
    rw [hU] at hc ho hfU hge hlt ⊢
    exact key _ s.offset s.factor hc ho hfU hge hlt

/-- C1: for every admissible state (offset inside one sample unit, positive
factor not exceeding one sample per clock, room for N more samples), ending
the frame with exactly blip_clocks_needed N clocks, with no deltas added in
between, succeeds and makes exactly N additional samples available through
blip_samples_avail; in particular the returned clock count never yields
fewer than N samples. -/
theorem blip_clocks_needed_end_frame_exact (s : blip_t) (N : Nat)
    (ho : s.offset < time_unit) (hf : 0 < s.factor) (hfU : s.factor ≤ time_unit)
    (hcap : s.avail + N ≤ s.size) :
    Option.map blip_samples_avail (blip_end_frame s (blip_clocks_needed s N)) =
      some (blip_samples_avail s + N) := by
  have hS := clocks_needed_div s N ho hf hfU
  have hEF : blip_end_frame s (blip_clocks_needed s N) =
      some { s with avail := s.avail + N,
                    offset := (blip_clocks_needed s N * s.factor + s.offset) % time_unit } := by
    unfold blip_end_frame
    simp only [hS]
    rw [if_neg (by omega)]
  rw [hEF]
  simp [blip_samples_avail]

theorem blip_clocks_needed_end_frame_exact_witness :
    (blip_new 10).offset < time_unit ∧ 0 < (blip_new 10).factor ∧
      (blip_new 10).factor ≤ time_unit ∧ (blip_new 10).avail + 4 ≤ (blip_new 10).size ∧
      Option.map blip_samples_avail
          (blip_end_frame (blip_new 10) (blip_clocks_needed (blip_new 10) 4)) =
        some (blip_samples_avail (blip_new 10) + 4) :=
  ⟨by decide, by decide, by decide, by decide,
    blip_clocks_needed_end_frame_exact (blip_new 10) 4 (by decide) (by decide)
      (by decide) (by decide)⟩

/-- C2: sequences of blip_add_delta calls inside one frame that are
permutations of each other (same multiset of (clock_time, delta) pairs)
produce identical accumulator states, and therefore ending the frame and
reading samples yields bit-identical sample streams for both orders. -/
theorem blip_add_delta_order_independent (kernel : Nat → Nat → Int) (taps : Nat)
    (s : blip_t) (l1 l2 : List (Nat × Int)) (t count : Nat) (out : Array Int)
    (stereo : Bool) (h : l1.Perm l2) :
    addDeltas kernel taps s l1 = addDeltas kernel taps s l2 ∧
    Option.map (readFirst out count stereo)
        (blip_end_frame (addDeltas kernel taps s l1) t) =
      Option.map (readFirst out count stereo)
        (blip_end_frame (addDeltas kernel taps s l2) t) := by
  have hmain : addDeltas kernel taps s l1 = addDeltas kernel taps s l2 := by
    unfold addDeltas
    exact foldl_right_comm_perm _
      (fun b a1 a2 => blip_add_delta_comm kernel taps b a1.1 a2.1 a1.2 a2.2) h s
  exact ⟨hmain, by rw [hmain]⟩

theorem blip_add_delta_order_independent_witness :
    ([(1, (5 : Int)), (3, -2), (1, 4)] : List (Nat × Int)).Perm
        [(3, -2), (1, 4), (1, 5)] ∧
    (addDeltas kW 4 (blip_new 6) [(1, 5), (3, -2), (1, 4)] =
        addDeltas kW 4 (blip_new 6) [(3, -2), (1, 4), (1, 5)] ∧
      Option.map (readFirst (Array.mkArray 8 7) 8 false)
          (blip_end_frame (addDeltas kW 4 (blip_new 6) [(1, 5), (3, -2), (1, 4)]) 3145728) =
        Option.map (readFirst (Array.mkArray 8 7) 8 false)
          (blip_end_frame (addDeltas kW 4 (blip_new 6) [(3, -2), (1, 4), (1, 5)]) 3145728)) :=
  ⟨by decide,
    blip_add_delta_order_independent kW 4 (blip_new 6)
      [(1, 5), (3, -2), (1, 4)] [(3, -2), (1, 4), (1, 5)] 3145728 8
      (Array.mkArray 8 7) false (by decide)⟩

theorem setAt_getElem?_ne (a : Array Int) (i : Nat) (v : Int) (j : Nat) (h : i ≠ j) :
    (setAt a i v)[j]? = a[j]? := by
  unfold setAt
  split
  · exact Array.getElem?_set_ne _ _ _ h
  · rfl

theorem readLoop_odd_untouched (buf : Array Int) (k : Nat) :
    ∀ (i : Nat) (out : Array Int) (sum : Int) (j : Nat), j % 2 = 1 →
      ((readLoop buf 2 i k out sum).1)[j]? = out[j]? := by
  induction k with
  | zero => intro i out sum j _; rfl
  | succ m ih =>
    intro i out sum j hj
    show ((readLoop buf 2 (i + 1) m
        (setAt out (i * 2) (clamp16 (sum + buf.getD i 0))) (sum + buf.getD i 0)).1)[j]? =
      out[j]?
    rw [ih _ _ _ _ hj]
    exact setAt_getElem?_ne _ _ _ _ (by omega)

/-- C3: blip_read_samples returns min(count, samples available); it reduces
the available count by exactly the number of samples returned, and when the
request exceeds the available samples it returns exactly that many and
leaves the buffer empty: a short read only ever reflects insufficient
available samples, never an error. -/
theorem blip_read_samples_min_spec (s : blip_t) (out : Array Int) (count : Nat)
    (stereo : Bool) :
    (blip_read_samples s out count stereo).2.2 = min count (blip_samples_avail s) ∧
    blip_samples_avail (blip_read_samples s out count stereo).1 =
      blip_samples_avail s - (blip_read_samples s out count stereo).2.2 ∧
    (blip_samples_avail s ≤ count →
      blip_samples_avail (blip_read_samples s out count stereo).1 = 0) := by
  refine ⟨rfl, rfl, fun h => ?_⟩
  show s.avail - min count s.avail = 0
  have h2 : min count s.avail = s.avail := by
    unfold blip_samples_avail at h
    omega
  omega

theorem blip_read_samples_min_spec_witness :
    (blip_read_samples sW (Array.mkArray 8 9) 7 false).2.2 =
        min 7 (blip_samples_avail sW) ∧
    blip_samples_avail (blip_read_samples sW (Array.mkArray 8 9) 7 false).1 =
      blip_samples_avail sW - (blip_read_samples sW (Array.mkArray 8 9) 7 false).2.2 ∧
    blip_samples_avail (blip_read_samples sW (Array.mkArray 8 9) 7 false).1 = 0 :=
  ⟨(blip_read_samples_min_spec sW (Array.mkArray 8 9) 7 false).1,
   (blip_read_samples_min_spec sW (Array.mkArray 8 9) 7 false).2.1,
   (blip_read_samples_min_spec sW (Array.mkArray 8 9) 7 false).2.2 (by decide)⟩

/-- C8: reading in stereo mode writes only even-indexed output slots; every
odd-indexed slot of the output array holds exactly the value it held before
the call. -/
theorem blip_read_samples_stereo_odd_untouched (s : blip_t) (out : Array Int)
    (count j : Nat) (hj : j % 2 = 1) :
    ((blip_read_samples s out count true).2.1)[j]? = out[j]? := by
  show ((readLoop s.buf 2 0 (min count s.avail) out s.integrator).1)[j]? = out[j]?
  exact readLoop_odd_untouched s.buf (min count s.avail) 0 out s.integrator j hj

theorem blip_read_samples_stereo_odd_untouched_witness :
    3 % 2 = 1 ∧
      ((blip_read_samples sW (Array.mkArray 8 (9 : Int)) 7 true).2.1)[3]? =
        (Array.mkArray 8 (9 : Int))[3]? :=
  ⟨by decide,
    blip_read_samples_stereo_odd_untouched sW (Array.mkArray 8 (9 : Int)) 7 3 (by decide)⟩

theorem blip_end_frame_eq (s : blip_t) (t : Nat) :
    blip_end_frame s t =
      if s.size < s.avail + (t * s.factor + s.offset) / time_unit then none
      else some { s with avail := s.avail + (t * s.factor + s.offset) / time_unit,
                         offset := (t * s.factor + s.offset) % time_unit } := rfl

/-- C4: a successful end_frame finalizing S = frameSamples s t samples turns
frame cell S + j of the old frame into frame cell j of the new frame (the
un-finalized kernel spread carries into the new frame unchanged), appends
exactly S samples to the readable range, and rebases the clock origin: the
old fixed-point position of clock_duration equals the S finalized sample
units plus the new sub-sample offset, which is again below one sample unit. -/
theorem blip_end_frame_carry_spec (s : blip_t) (t j : Nat)
    (h : s.avail + frameSamples s t ≤ s.size) :
    Option.map (frameCellAt j) (blip_end_frame s t) =
      some (frameCellAt (frameSamples s t + j) s) ∧
    Option.map blip_t.avail (blip_end_frame s t) = some (s.avail + frameSamples s t) ∧
    Option.map blip_t.offset (blip_end_frame s t) =
      some ((t * s.factor + s.offset) % time_unit) ∧
    t * s.factor + s.offset =
      frameSamples s t * time_unit + (t * s.factor + s.offset) % time_unit ∧
    (t * s.factor + s.offset) % time_unit < time_unit := by
  have hfs : (t * s.factor + s.offset) / time_unit = frameSamples s t := rfl
  have hEF : blip_end_frame s t =
      some { s with avail := s.avail + frameSamples s t,
                    offset := (t * s.factor + s.offset) % time_unit } := by
    rw [blip_end_frame_eq, hfs, if_neg (by omega)]
  rw [hEF]
  refine ⟨?_, rfl, rfl, ?_, Nat.mod_lt _ time_unit_pos⟩
  · unfold frameCellAt
    dsimp only [Option.map_some']
    rw [Nat.add_assoc]
  · calc t * s.factor + s.offset
        = time_unit * ((t * s.factor + s.offset) / time_unit) +
            (t * s.factor + s.offset) % time_unit :=
          (Nat.div_add_mod _ _).symm
      _ = frameSamples s t * time_unit + (t * s.factor + s.offset) % time_unit := by
          rw [hfs, Nat.mul_comm]

theorem blip_end_frame_carry_spec_witness :
    sW.avail + frameSamples sW 1048576 ≤ sW.size ∧
    (Option.map (frameCellAt 0) (blip_end_frame sW 1048576) =
        some (frameCellAt (frameSamples sW 1048576 + 0) sW) ∧
      Option.map blip_t.avail (blip_end_frame sW 1048576) =
        some (sW.avail + frameSamples sW 1048576) ∧
      Option.map blip_t.offset (blip_end_frame sW 1048576) =
        some ((1048576 * sW.factor + sW.offset) % time_unit) ∧
      1048576 * sW.factor + sW.offset =
        frameSamples sW 1048576 * time_unit +
          (1048576 * sW.factor + sW.offset) % time_unit ∧
      (1048576 * sW.factor + sW.offset) % time_unit < time_unit) :=
  ⟨by decide, blip_end_frame_carry_spec sW 1048576 0 (by decide)⟩

theorem getD_mkArray_zero (n i : Nat) : (Array.mkArray n (0 : Int)).getD i 0 = 0 := by
  rw [Array.getD_eq_get?]
  by_cases h : i < n
  · rw [Array.getElem?_eq_getElem (by simpa using h)]
    simp [Array.getElem_mkArray]
  · rw [Array.getElem?_len_le _ (by simpa using h)]
    rfl

/-- C5: after clear, no samples are available and the running cumulative sum
is zero, so the first sample emitted afterwards (finalizing any nonempty
frame with no deltas and reading one sample) has baseline amplitude 0,
whatever the running-sum value was before the call. -/
theorem blip_clear_spec (s : blip_t) (t : Nat) (out : Array Int)
    (h1 : 0 < frameSamples (blip_clear s) t)
    (h2 : frameSamples (blip_clear s) t ≤ s.size) :
    blip_samples_avail (blip_clear s) = 0 ∧
    (blip_clear s).integrator = 0 ∧
    Option.map (readFirst out 1 false) (blip_end_frame (blip_clear s) t) =
      some (setAt out 0 0) := by
  refine ⟨rfl, rfl, ?_⟩
  have hfs : (t * (blip_clear s).factor + (blip_clear s).offset) / time_unit =
      frameSamples (blip_clear s) t := rfl
  have ha : (blip_clear s).avail = 0 := rfl
  have hsz : (blip_clear s).size = s.size := rfl
  have hEF : blip_end_frame (blip_clear s) t =
      some { blip_clear s with
        avail := (blip_clear s).avail + frameSamples (blip_clear s) t,
        offset := (t * (blip_clear s).factor + (blip_clear s).offset) % time_unit } := by
    rw [blip_end_frame_eq, hfs, if_neg (by omega)]
  rw [hEF]
  dsimp only [Option.map_some']
  congr 1
  have hmin : min 1 ((blip_clear s).avail + frameSamples (blip_clear s) t) = 1 := by
    rw [ha]
    omega
  show (readLoop (blip_clear s).buf 1 0
      (min 1 ((blip_clear s).avail + frameSamples (blip_clear s) t)) out
      (blip_clear s).integrator).1 = setAt out 0 0
  rw [hmin]
  show setAt out (0 * 1)
      (clamp16 ((blip_clear s).integrator + (blip_clear s).buf.getD 0 0)) = setAt out 0 0
  have hb : (blip_clear s).buf.getD 0 0 = 0 := getD_mkArray_zero s.buf.size 0
  have hi : (blip_clear s).integrator = 0 := rfl
  rw [hb, hi]
  norm_num [clamp16]

theorem blip_clear_spec_witness :
    0 < frameSamples (blip_clear sW) 2097152 ∧
      frameSamples (blip_clear sW) 2097152 ≤ sW.size ∧
      (blip_samples_avail (blip_clear sW) = 0 ∧
        (blip_clear sW).integrator = 0 ∧
        Option.map (readFirst (Array.mkArray 3 (7 : Int)) 1 false)
            (blip_end_frame (blip_clear sW) 2097152) =
          some (setAt (Array.mkArray 3 (7 : Int)) 0 0)) :=
  ⟨by decide, by decide,
    blip_clear_spec sW 2097152 (Array.mkArray 3 (7 : Int)) (by decide) (by decide)⟩

/-- C9: every public operation preserves the buffer invariant
read_cursor at most write_extent at most capacity (in the front-shifted
representation the read cursor is cell 0 and the write extent is the
available count, which the guarded end_frame keeps within the capacity),
and blip_samples_avail always equals write_extent minus read_cursor. -/
theorem blip_ops_preserve_invariant (kernel : Nat → Nat → Int) (taps : Nat)
    (s : blip_t) (ct te count : Nat) (d : Int) (out : Array Int) (stereo : Bool)
    (cr sr : Nat) (h : wfBlip s) :
    wfBlip (blip_add_delta kernel taps s ct d) ∧
    wfBlip (blip_add_delta_fast kernel taps s ct d) ∧
    wfOpt (blip_end_frame s te) ∧
    wfBlip (blip_read_samples s out count stereo).1 ∧
    wfBlip (blip_clear s) ∧
    wfBlip (blip_set_rates s cr sr).1 ∧
    blip_samples_avail s = write_extent s - read_cursor s ∧
    read_cursor s ≤ write_extent s ∧
    write_extent s ≤ capacity s := by
  have h2 : s.avail ≤ s.size := h
  refine ⟨h2, h2, ?_, ?_, Nat.zero_le _, ?_, ?_, Nat.zero_le _, h2⟩
  · rw [blip_end_frame_eq]
    split
    · trivial
    next hcond =>
      show s.avail + (te * s.factor + s.offset) / time_unit ≤ s.size
      omega
  · show s.avail - min count s.avail ≤ s.size
    omega
  · unfold blip_set_rates
    split
    · exact h2
    · exact h2
  · show s.avail = s.avail - 0
    omega

theorem blip_ops_preserve_invariant_witness :
    sW.avail ≤ sW.size ∧
    (wfBlip (blip_add_delta kW 3 sW 2 7) ∧
      wfBlip (blip_add_delta_fast kW 3 sW 2 7) ∧
      wfOpt (blip_end_frame sW 1048576) ∧
      wfBlip (blip_read_samples sW (Array.mkArray 4 (1 : Int)) 5 true).1 ∧
      wfBlip (blip_clear sW) ∧
      wfBlip (blip_set_rates sW 1789773 44100).1 ∧
      blip_samples_avail sW = write_extent sW - read_cursor sW ∧
      read_cursor sW ≤ write_extent sW ∧
      write_extent sW ≤ capacity sW) :=
  ⟨by decide,
    blip_ops_preserve_invariant kW 3 sW 2 1048576 5 7 (Array.mkArray 4 (1 : Int)) true
      1789773 44100 (by decide : sW.avail ≤ sW.size)⟩
